import Mathlib

/-!
Verification of the psc range-partitioned chunk engine.

Shallow embedding of the Go sources: `service.go` (pg_service.conf parsing and
SSL-fallback connection logic), `copier.go` (copy-mode worker pool, MIN-probe
partitioner, chunk executor, coordinator), the statement-mode batched executor
(`runBatched`, `extractTableForMax`), the migration-record store helpers
(`UpdateProgress`, `UpdateStatus`), and the run entry points (`RunMigration`,
`runSingle`). Database and process I/O is abstracted as parameters (key sets,
error outcomes); all pure control flow and arithmetic is translated directly.
-/

namespace PSC

/-! ## String helpers mirroring the Go standard library functions used -/

/-- Characters removed by Go `strings.Trim(line, "[]")`. -/
def bracketChar (c : Char) : Bool := c = '[' || c = ']'

/-- Go `strings.Trim(s, "[]")`: strip leading and trailing `[` / `]` characters. -/
def goTrimBrackets (s : String) : String :=
  ((s.toList.dropWhile bracketChar).reverse.dropWhile bracketChar).reverse.asString

/-- Go `strings.TrimSpace`: strip leading and trailing whitespace. -/
def goTrimSpace (s : String) : String :=
  (((s.toList.dropWhile Char.isWhitespace).reverse.dropWhile Char.isWhitespace).reverse).asString

/-- Go `strings.HasPrefix`. -/
def goHasPfx (s pre : String) : Bool := pre.toList.isPrefixOf s.toList

/-- Go `strings.HasSuffix`. -/
def goHasSfx (s suf : String) : Bool := suf.toList.reverse.isPrefixOf s.toList.reverse

/-- Go `strings.SplitN(s, "=", 2)`: split at the first `=` only; a string
without `=` yields a single part. -/
def splitEq2 (s : String) : List String :=
  let p := s.toList.span (fun c => c != '=')
  match p.2 with
  | [] => [s]
  | _ :: rest => [p.1.asString, rest.asString]

/-- First index of `sub` in `hay` (Go `strings.Index`, `none` for -1). -/
def substrIdx (hay sub : List Char) : Option Nat :=
  if sub.isPrefixOf hay then some 0
  else
    match hay with
    | [] => none
    | _ :: t => (substrIdx t sub).map (· + 1)

/-- Go `strings.Contains(s, sub)`. -/
def goContains (s sub : String) : Bool := (substrIdx s.toList sub.toList).isSome

/-- Go `strings.ToUpper` (ASCII, as used on the SQL text). -/
def goToUpper (s : String) : String := (s.toList.map Char.toUpper).asString

/-- Accumulator loop for `goFields`. -/
def fieldsAux : List Char → List Char → List String
  | [], acc => if acc.isEmpty then [] else [acc.reverse.asString]
  | c :: t, acc =>
    if c.isWhitespace then
      if acc.isEmpty then fieldsAux t [] else acc.reverse.asString :: fieldsAux t []
    else fieldsAux t (c :: acc)

/-- Go `strings.Fields`: whitespace-separated words, no empties. -/
def goFields (s : String) : List String := fieldsAux s.toList []

/-- Go byte-slicing `s[n:]`, modelled on characters (the inputs of interest
are ASCII SQL text). -/
def strDropChars (s : String) (n : Nat) : String := (s.toList.drop n).asString

/-! ## ServiceConfig and ParseServiceFile (service.go lines 20-85) -/

/-- PostgreSQL connection parameters (`service.go` `ServiceConfig`). -/
structure ServiceConfig where
  Host : String
  Port : String
  DBName : String
  User : String
  Password : String
deriving DecidableEq

/-- Go zero value `ServiceConfig{}` used before the first section header. -/
def zeroConfig : ServiceConfig := ⟨"", "", "", "", ""⟩

/-- The fresh config created at a section header: `ServiceConfig{Port: "5432"}`. -/
def defaultSectionConfig : ServiceConfig := ⟨"", "5432", "", "", ""⟩

/-- The scanner state of `ParseServiceFile`: the accumulated map, the current
section name and the config being built. The Go map is modelled as a lookup
function. -/
structure ParseState where
  services : String → Option ServiceConfig
  currentService : String
  currentConfig : ServiceConfig

/-- Go map assignment `services[k] = v`. -/
def mapInsert (m : String → Option ServiceConfig) (k : String) (v : ServiceConfig) :
    String → Option ServiceConfig :=
  fun q => if q = k then some v else m q

/-- The `if currentService != "" { services[currentService] = currentConfig }`
step performed at a section header and at end of file. -/
def saveCurrent (st : ParseState) : String → Option ServiceConfig :=
  if st.currentService = "" then st.services
  else mapInsert st.services st.currentService st.currentConfig

/-- The `switch key` assignment of `ParseServiceFile`; unknown keys are ignored. -/
def applyKV (cfg : ServiceConfig) (key value : String) : ServiceConfig :=
  if key = "host" then { cfg with Host := value }
  else if key = "port" then { cfg with Port := value }
  else if key = "dbname" then { cfg with DBName := value }
  else if key = "user" then { cfg with User := value }
  else if key = "password" then { cfg with Password := value }
  else cfg

/-- One iteration of the scanner loop of `ParseServiceFile`. -/
def processLine (st : ParseState) (rawLine : String) : ParseState :=
  let line := goTrimSpace rawLine
  if line = "" || goHasPfx line "#" || goHasPfx line ";" then st
  else if goHasPfx line "[" && goHasSfx line "]" then
    { services := saveCurrent st
      currentService := goTrimBrackets line
      currentConfig := defaultSectionConfig }
  else
    match splitEq2 line with
    | [k, v] => { st with currentConfig := applyKV st.currentConfig (goTrimSpace k) (goTrimSpace v) }
    | _ => st

/-- State at the start of the scanner loop. -/
def initParseState : ParseState := ⟨fun _ => none, "", zeroConfig⟩

/-- Run the scanner loop over a list of lines. -/
def runLines (st : ParseState) (lines : List String) : ParseState :=
  lines.foldl processLine st

/-- The map returned after the trailing `if currentService != ""` save. -/
def finalServices (st : ParseState) : String → Option ServiceConfig := saveCurrent st

/-- The service map `ParseServiceFile` computes from the file's lines. -/
def parseLinesMap (lines : List String) : String → Option ServiceConfig :=
  finalServices (runLines initParseState lines)

/-- Full `ParseServiceFile` with its two I/O failure points abstracted:
`openResult` is `none` when `os.Open` fails, and `scanErr` is the value of
`scanner.Err()` checked after the loop. Every other path returns the map. -/
def ParseServiceFile (openResult : Option (List String)) (scanErr : Option String) :
    Option (String → Option ServiceConfig) :=
  match openResult with
  | none => none
  | some lines => if scanErr.isSome then none else some (parseLinesMap lines)

/-- Recognizer for the section-header branch of `processLine`. -/
def isHeaderLine (rawLine : String) : Bool :=
  let line := goTrimSpace rawLine
  !(line = "" || goHasPfx line "#" || goHasPfx line ";") &&
    (goHasPfx line "[" && goHasSfx line "]")

/-- Section name computed at a header line. -/
def headerName (rawLine : String) : String := goTrimBrackets (goTrimSpace rawLine)

/-- Lines that hit neither the header branch nor the key=value branch:
blank or comment lines, and lines without `=` that are not headers. -/
def skippableLine (rawLine : String) : Bool :=
  let line := goTrimSpace rawLine
  (line = "" || goHasPfx line "#" || goHasPfx line ";") ||
    (!(goHasPfx line "[" && goHasSfx line "]") && !((splitEq2 line).length = 2))

/-- Effect of a non-header line on the config being built. -/
def configEffect (cfg : ServiceConfig) (rawLine : String) : ServiceConfig :=
  let line := goTrimSpace rawLine
  if line = "" || goHasPfx line "#" || goHasPfx line ";" then cfg
  else
    match splitEq2 line with
    | [k, v] => applyKV cfg (goTrimSpace k) (goTrimSpace v)
    | _ => cfg

/-! ## SSL-fallback connection logic (copier.go lines 439-472, service.go lines 179-214)

Database attempts are abstracted: an attempt is described by the outcome of
`sql.Open` and the outcome of `db.Ping` (`none` means success, `some msg` is
the error text). -/

/-- The ping error text that triggers the no-SSL retry in `connectWithSSLRetry`. -/
def sslNotEnabledMsg : String := "SSL is not enabled on the server"

/-- Result of a connect routine: a connection with the sslmode it ended up
using, or a failure tagged with the stage that produced it. -/
inductive ConnResult
  | connected (sslmode : String)
  | connFailed (stage : String)
deriving DecidableEq

/-- The fallback block shared by both routines: open with `sslmode=disable`,
then ping. -/
def connectDisableAttempt (openDis pingDis : Option String) : ConnResult :=
  match openDis with
  | some _ => .connFailed "open-nossl"
  | none =>
    match pingDis with
    | some _ => .connFailed "ping-nossl"
    | none => .connected "disable"

/-- copier.go `connectWithSSLRetry`: open with `sslmode=require`; on ping
error retry without SSL only when the error contains `sslNotEnabledMsg`;
every other open or ping error is returned. -/
def connectWithSSLRetry (openReq pingReq openDis pingDis : Option String) : ConnResult :=
  match openReq with
  | some _ => .connFailed "open"
  | none =>
    match pingReq with
    | none => .connected "require"
    | some e =>
      if goContains e sslNotEnabledMsg then connectDisableAttempt openDis pingDis
      else .connFailed "ping"

/-- service.go `ConnectService` (after the service lookup): try
`sslmode=require`; if the open or the ping fails for any reason fall back to
`sslmode=disable`. -/
def ConnectService (openReq pingReq openDis pingDis : Option String) : ConnResult :=
  match openReq, pingReq with
  | none, none => .connected "require"
  | _, _ => connectDisableAttempt openDis pingDis

/-! ## Statement-mode table extraction and the runBatched prelude
(src/unnamed/part_004 lines 137-177 and 253-277) -/

/-- part_004 `extractTableForMax`: heuristic extraction of the table name from
an `UPDATE`/`FROM` statement; when neither yields a word the fallback string
`"unknown_table"` is returned (the function has no failure path). The `column`
argument is unused, as in the source. -/
def extractTableForMax (sqlStr column : String) : String :=
  let upper := goToUpper sqlStr
  let fromUpd : Option String :=
    match substrIdx upper.toList ("UPDATE ").toList with
    | some idx => (goFields (goTrimSpace (strDropChars sqlStr (idx + 7)))).head?
    | none => none
  match fromUpd with
  | some f => f
  | none =>
    match substrIdx upper.toList ("FROM ").toList with
    | some idx =>
      match (goFields (goTrimSpace (strDropChars sqlStr (idx + 5)))).head? with
      | some f => f
      | none => "unknown_table"
    | none => "unknown_table"

/-- runBatched line 156-159: `startFrom := record.LastCompletedID; if startFrom
< 0 { startFrom = 0 }`. -/
def resumeStart (lastCompletedID : Int) : Int :=
  if lastCompletedID < 0 then 0 else lastCompletedID

/-- runBatched line 166-168: `if parallelism < 1 { parallelism = 1 }`. -/
def effectiveParallelism (p : Int) : Int := if p < 1 then 1 else p

/-- Outcome of the runBatched prelude before any worker is launched. -/
inductive BatchedStart
  | earlyFail (msg : String)
  | launched (maxID startFrom chunkSize parallelism : Int)
deriving DecidableEq

/-- runBatched lines 138-177: the MAX probe (whose scan outcome is abstracted
as `probe`) either fails — `RecordError`, status `failed`, return, zero
workers — or yields `maxID`, after which the claim counter and the worker
pool are set up. -/
def runBatchedStart (probe : Except String Int) (lastCompletedID chunkSize par : Int) :
    BatchedStart :=
  match probe with
  | .error e => .earlyFail ("failed to get max id: " ++ e)
  | .ok maxID => .launched maxID (resumeStart lastCompletedID) chunkSize (effectiveParallelism par)

/-! ## Run entry points (daemon.go RunMigration, part_002 runSingle) -/

/-- Result of the pre-start checks of `Daemon.RunMigration`. -/
inductive RunMigrationOutcome
  | notFound
  | alreadyRunningInProc
  | recordLoadErr
  | alreadyCompleted
  | alreadyRunningStatus
  | started
deriving DecidableEq

/-- daemon.go lines 123-151: the checks `RunMigration` performs, in source
order, before spawning `Executor.Run`. `found` is `GetMigration(name) != nil`,
`isRunningInProc` is `Executor.IsRunning`, `recordOk` is whether
`GetMigrationByName` succeeded, `status` is the record's status column. -/
def runMigrationDecision (found isRunningInProc recordOk : Bool) (status : String) :
    RunMigrationOutcome :=
  if !found then .notFound
  else if isRunningInProc then .alreadyRunningInProc
  else if !recordOk then .recordLoadErr
  else if status = "completed" then .alreadyCompleted
  else if status = "running" then .alreadyRunningStatus
  else .started

/-- part_002 `runSingle` (the CLI `psc run <name>` path): after `Poll`, it
requires only that the migration parses (`found`) and the record loads
(`recordOk`); the record's status is never inspected before `Executor.Run`. -/
def runSingleStarts (found recordOk : Bool) (status : String) : Bool :=
  found && recordOk

/-! ## Copy mode (copier.go)

The source table is abstracted as the list of values of the key column
(`keys`); SQL aggregate probes are translated to list operations, and the
psql producer/consumer process pair is abstracted by error flags. -/

/-- copyChunk lines 348-357: `SELECT MIN(id) FROM (SELECT id FROM t WHERE id
>= a ORDER BY id LIMIT chunkSize) t`. The MIN of the first `chunkSize` keys
that are `≥ a` is the least such key; `LIMIT 0` (or negative) yields no rows,
hence NULL. -/
def minProbe (keys : List Int) (a chunkSize : Int) : Option Int :=
  if chunkSize ≤ 0 then none
  else (keys.filter (fun k => a ≤ k)).min?

/-- Return value of copyChunk: `(copied int64, actualEndID int64, err error)`. -/
structure ChunkRet where
  rowCount : Int
  endID : Int
  err : Option String
deriving DecidableEq

/-- copier.go `copyChunk` (lines 344-428), for the claim `lastMaxID = a`:
probe the MIN key `≥ a` (its scan error abstracted as `probeErr`); NULL means
no more rows `(0, a, nil)`; otherwise pipe
`COPY ... WHERE id >= minID AND id < minID + chunkSize` into the target
(process failures abstracted by the three flags, each returning `(0, a, err)`)
and on success return the nominal `(chunkSize, minID + chunkSize, nil)`. -/
def copyChunk (keys : List Int) (a chunkSize : Int)
    (probeErr targetStartErr sourceRunErr targetWaitErr : Bool) : ChunkRet :=
  if probeErr then ⟨0, a, some "failed to get min ID"⟩
  else
    match minProbe keys a chunkSize with
    | none => ⟨0, a, none⟩
    | some minID =>
      if targetStartErr then ⟨0, a, some "failed to start target psql"⟩
      else if sourceRunErr then ⟨0, a, some "source psql failed"⟩
      else if targetWaitErr then ⟨0, a, some "target psql failed"⟩
      else ⟨chunkSize, minID + chunkSize, none⟩

/-- copier.go `chunkResult` (lines 127-133), without the wall-clock field. -/
structure chunkResult where
  startID : Int
  endID : Int
  rowCount : Int
  err : Option String
deriving DecidableEq

/-- Exit reasons of the copy-mode worker loop. -/
inductive CopyExit
  | claimGuard
  | noRows
  | chunkErr
  | fuelOut
deriving DecidableEq

/-- copier.go worker loop (lines 217-255) for one worker with no
cancellation: each round first tests `nextStartID > estimatedRows + startID`
and exits if so; otherwise it claims `next`, advances the claim counter by
`chunkSize`, runs `copyChunk` (a per-claim pipe failure is given by `errAt`),
always emits the `chunkResult`, and stops after an error or an empty chunk.
`fuel` bounds the recursion. -/
def copyWorkerLoop (keys : List Int) (errAt : Int → Bool)
    (estimatedRows startID chunkSize : Int) (next : Int) :
    Nat → List chunkResult × CopyExit
  | 0 => ([], .fuelOut)
  | fuel + 1 =>
    if next > estimatedRows + startID then ([], .claimGuard)
    else
      let r := copyChunk keys next chunkSize false false (errAt next) false
      let res : chunkResult := ⟨next, r.endID, r.rowCount, r.err⟩
      if r.err.isSome then ([res], .chunkErr)
      else if r.rowCount = 0 then ([res], .noRows)
      else
        let rest := copyWorkerLoop keys errAt estimatedRows startID chunkSize
          (next + chunkSize) fuel
        (res :: rest.1, rest.2)

/-- The coordinator's running aggregate over the result channel
(copier.go lines 198-206 and 265-313): the persisted `state.LastID`, the
in-memory `highestCompletedID`, `totalCopied`, the error list, and whether
`cancel()` has been fired. -/
structure CopyCoordState where
  lastID : Int
  highestCompletedID : Int
  totalCopied : Int
  errorsLogged : Nat
  cancelFired : Bool
deriving DecidableEq

/-- Handling of one `chunkResult` in the coordinator loop (lines 265-313):
an error appends to the error list and fires `cancel()`; a zero-row result is
skipped; a success raises `highestCompletedID` to `max(old, endID)` and
persists it as `state.LastID`. -/
def processResult (st : CopyCoordState) (r : chunkResult) : CopyCoordState :=
  if r.err.isSome then
    { st with errorsLogged := st.errorsLogged + 1, cancelFired := true }
  else if r.rowCount = 0 then st
  else
    let h := if r.endID > st.highestCompletedID then r.endID else st.highestCompletedID
    { st with highestCompletedID := h, lastID := h, totalCopied := st.totalCopied + r.rowCount }

/-- Coordinator state before any result arrives: `state.LastID = startID`
(copyTableInternal line 109) and `highestCompletedID = startID - 1`
(copyData line 202). -/
def initCoord (startID : Int) : CopyCoordState := ⟨startID, startID - 1, 0, 0, false⟩

/-- Folding the whole result sequence through the coordinator. -/
def processResults (startID : Int) (rs : List chunkResult) : CopyCoordState :=
  rs.foldl processResult (initCoord startID)

/-! ## Statement-mode batched executor as a transition system
(src/unnamed/part_004 `runBatched` lines 161-251, part_006 `UpdateProgress`)

Workers share the atomic claim counter and the migration record; chunk
execution outcomes are given by the configuration (`errs`). Each constructor
of `Step` is one atomic observable action of one worker (or of the external
canceller). -/

/-- Static configuration of one `runBatched` call. -/
structure StmtCfg where
  startFrom : Int
  maxID : Int
  chunkSize : Int
  errs : Int → Bool
  onErrorContinue : Bool

/-- Shared state: the claim counter, claimed-but-unfinished chunk starts,
finished chunk starts in completion order, the number of workers still in
their loop, the persisted `last_completed_id` (written by `UpdateProgress`,
which stores its argument unconditionally), the error count, and the
status/cancellation flags. -/
structure StmtState where
  counter : Int
  inflight : List Int
  completed : List Int
  active : Nat
  lastCompleted : Int
  errorCount : Nat
  failed : Bool
  cancelRequested : Bool
  statusCancelled : Bool
deriving DecidableEq

/-- runBatched lines 196-198: `end := start + chunkSize - 1; if end > maxID {
end = maxID }`. -/
def chunkEnd (cfg : StmtCfg) (start : Int) : Int :=
  if start + cfg.chunkSize - 1 > cfg.maxID then cfg.maxID else start + cfg.chunkSize - 1

/-- Lines 191-199: `start := counter.Add(chunkSize) - chunkSize` with
`start ≤ maxID`, entering execution of the chunk. -/
def claimUpd (cfg : StmtCfg) (s : StmtState) : StmtState :=
  { s with counter := s.counter + cfg.chunkSize, inflight := s.inflight ++ [s.counter] }

/-- Lines 191-193: a claim with `start > maxID` makes the worker return. -/
def claimExitUpd (cfg : StmtCfg) (s : StmtState) : StmtState :=
  { s with counter := s.counter + cfg.chunkSize, active := s.active - 1 }

/-- Lines 225-235: a chunk finishes without error; `es.LastCompletedID` and
the record's `last_completed_id` are overwritten with this chunk's `end`. -/
def completeOkUpd (cfg : StmtCfg) (s : StmtState) (a : Int) : StmtState :=
  { s with inflight := s.inflight.erase a, completed := s.completed ++ [a],
           lastCompleted := chunkEnd cfg a }

/-- Lines 214-218 with `on_error = continue`: `RecordError` and loop. -/
def errContUpd (s : StmtState) (a : Int) : StmtState :=
  { s with inflight := s.inflight.erase a, errorCount := s.errorCount + 1 }

/-- Lines 214-223 with `on_error = abort`: `RecordError`, store `firstErr`,
`UpdateStatus failed`, and only this worker returns. -/
def errAbortUpd (s : StmtState) (a : Int) : StmtState :=
  { s with inflight := s.inflight.erase a, errorCount := s.errorCount + 1,
           failed := true, active := s.active - 1 }

/-- Lines 182-189: a worker observing the cancelled context returns, writing
status `cancelled` when no error was stored first. -/
def cancelExitUpd (s : StmtState) : StmtState :=
  { s with active := s.active - 1, statusCancelled := s.statusCancelled || !s.failed }

/-- One atomic action of the batched executor. -/
inductive Step (cfg : StmtCfg) : StmtState → StmtState → Prop
  | claim (s : StmtState) (h : 1 ≤ s.active) (hc : s.counter ≤ cfg.maxID) :
      Step cfg s (claimUpd cfg s)
  | claimExit (s : StmtState) (h : 1 ≤ s.active) (hc : cfg.maxID < s.counter) :
      Step cfg s (claimExitUpd cfg s)
  | completeOk (s : StmtState) (a : Int) (ha : a ∈ s.inflight) (he : cfg.errs a = false) :
      Step cfg s (completeOkUpd cfg s a)
  | completeErrCont (s : StmtState) (a : Int) (ha : a ∈ s.inflight) (he : cfg.errs a = true)
      (hp : cfg.onErrorContinue = true) : Step cfg s (errContUpd s a)
  | completeErrAbort (s : StmtState) (a : Int) (ha : a ∈ s.inflight) (he : cfg.errs a = true)
      (hp : cfg.onErrorContinue = false) : Step cfg s (errAbortUpd s a)
  | cancelFire (s : StmtState) : Step cfg s { s with cancelRequested := true }
  | cancelExit (s : StmtState) (h : 1 ≤ s.active) (hc : s.cancelRequested = true) :
      Step cfg s (cancelExitUpd s)

/-- State when the pool of `P` workers is launched (lines 161-177):
counter at `startFrom`, ephemeral progress mirrors of the record. -/
def stmtInit (cfg : StmtCfg) (P : Nat) : StmtState :=
  { counter := cfg.startFrom, inflight := [], completed := [], active := P,
    lastCompleted := cfg.startFrom, errorCount := 0, failed := false,
    cancelRequested := false, statusCancelled := false }

/-- Reachability under worker/canceller interleaving. -/
def Reach (cfg : StmtCfg) : StmtState → StmtState → Prop :=
  Relation.ReflTransGen (Step cfg)

/-- Outcome returned by runBatched after `wg.Wait()` (lines 242-250):
the context error when cancellation fired, else the stored first error,
else `UpdateStatus completed`. -/
inductive BatchOutcome
  | cancelledOutcome
  | failedOutcome
  | completedOutcome
deriving DecidableEq

/-- Lines 242-250 of runBatched. -/
def batchedOutcome (s : StmtState) : BatchOutcome :=
  if s.cancelRequested then .cancelledOutcome
  else if s.failed then .failedOutcome
  else .completedOutcome

/-- Chunk starts handed out and not abandoned: finished ones plus in-flight
ones. -/
def claimsList (s : StmtState) : List Int := s.completed ++ s.inflight

/-- Membership of the arithmetic claim grid `startFrom, startFrom + C, …`. -/
def onGrid (cfg : StmtCfg) (a : Int) : Prop :=
  ∃ k : Nat, a = cfg.startFrom + k * cfg.chunkSize

/-- Claim-tracking invariant of the batched executor, independent of chunk
errors: the counter sits on the claim grid, every tracked claim is a grid
point that passed the `start ≤ maxID` test and lies below the counter, and no
claim is tracked twice. -/
structure SubInv (cfg : StmtCfg) (s : StmtState) : Prop where
  counterGrid : onGrid cfg s.counter
  claimsBelow : ∀ a ∈ claimsList s, onGrid cfg a ∧ a ≤ cfg.maxID ∧ a < s.counter
  claimsNodup : (claimsList s).Nodup

/-- Full invariant for error-free runs: additionally every grid point below
the counter that passed the bound test is tracked, and a drained pool that
was not cancelled has pushed the counter past `maxID`. -/
structure FullInv (cfg : StmtCfg) (s : StmtState) : Prop where
  counterGrid : onGrid cfg s.counter
  claimsIff : ∀ a, a ∈ claimsList s ↔ (onGrid cfg a ∧ a ≤ cfg.maxID ∧ a < s.counter)
  claimsNodup : (claimsList s).Nodup
  drained : s.cancelRequested = false → s.active = 0 → cfg.maxID < s.counter

/-! ## Concrete instances used in the theorems below -/

/-- A batched run with `startFrom = 0`, `maxID = 9`, `chunkSize = 4`, no
chunk errors, abort policy. -/
def cfgGrid : StmtCfg := ⟨0, 9, 4, fun _ => false, false⟩

/-- Terminal state of a one-worker run of `cfgGrid`. -/
def c3End : StmtState := ⟨16, [], [0, 4, 8], 0, 9, 0, false, false, false⟩

/-- A batched run with `startFrom = 0`, `maxID = 19`, `chunkSize = 10`, no
chunk errors. -/
def cfgRegress : StmtCfg := ⟨0, 19, 10, fun _ => false, false⟩

/-- State of `cfgRegress` with two workers after the second chunk completed
before the first: `last_completed_id` has regressed to 9 although 19 was
reported. -/
def c2End : StmtState := ⟨20, [], [10, 0], 2, 9, 0, false, false, false⟩

/-- Two-worker state of `cfgRegress` with both chunks claimed and running. -/
def c1Claims : StmtState := ⟨20, [0, 10], [], 2, 0, 0, false, false, false⟩

/-- A batched run whose first chunk (start 0) errors, abort policy. -/
def cfgAbort : StmtCfg := ⟨0, 19, 10, fun a => decide (a = 0), false⟩

/-- State of `cfgAbort` just after the erroring worker stored the error,
wrote status `failed` and returned. -/
def c4Mid : StmtState := ⟨10, [], [], 1, 0, 1, true, false, false⟩

/-- Terminal state of `cfgAbort` with two workers: after the failure the
surviving worker claimed and executed chunk `[10, 19]` and then drained. -/
def c4End : StmtState := ⟨30, [], [10], 0, 19, 1, true, false, false⟩

/-- A sparse source key column: two rows, keys 50 and 80 (`COUNT(*) = 2`). -/
def keysSparse2 : List Int := [50, 80]

/-- A source with ten rows whose first two keys are 5 and 12. -/
def keysSparse10 : List Int := [5, 12, 20, 30, 40, 50, 60, 70, 80, 90]

/-! ## Grid arithmetic -/

theorem onGrid_start (cfg : StmtCfg) : onGrid cfg cfg.startFrom :=
  ⟨0, by simp⟩

theorem onGrid_add (cfg : StmtCfg) {a : Int} (h : onGrid cfg a) :
    onGrid cfg (a + cfg.chunkSize) := by
  obtain ⟨k, rfl⟩ := h
  exact ⟨k + 1, by push_cast; ring⟩

theorem grid_le_of_lt_addC (cfg : StmtCfg) (hC : 0 < cfg.chunkSize) {a c : Int}
    (ha : onGrid cfg a) (hc : onGrid cfg c) (h : a < c + cfg.chunkSize) : a ≤ c := by
  obtain ⟨k, rfl⟩ := ha
  obtain ⟨n, rfl⟩ := hc
  have hk : (k : Int) * cfg.chunkSize < ((n : Int) + 1) * cfg.chunkSize := by nlinarith
  have hkn : (k : Int) < (n : Int) + 1 := lt_of_mul_lt_mul_right hk (le_of_lt hC)
  have hle : (k : Int) ≤ (n : Int) := by linarith
  nlinarith

theorem grid_addC_le_of_lt (cfg : StmtCfg) (hC : 0 < cfg.chunkSize) {a c : Int}
    (ha : onGrid cfg a) (hc : onGrid cfg c) (h : a < c) : a + cfg.chunkSize ≤ c := by
  obtain ⟨k, rfl⟩ := ha
  obtain ⟨n, rfl⟩ := hc
  have hk : (k : Int) * cfg.chunkSize < (n : Int) * cfg.chunkSize := by linarith
  have hkn : (k : Int) < (n : Int) := lt_of_mul_lt_mul_right hk (le_of_lt hC)
  have hle : (k : Int) + 1 ≤ (n : Int) := by linarith
  nlinarith

/-! ## Bookkeeping lemmas for the step updates -/

theorem claimsList_claimUpd (cfg : StmtCfg) (s : StmtState) :
    claimsList (claimUpd cfg s) = claimsList s ++ [s.counter] := by
  simp [claimsList, claimUpd]

theorem claimsList_claimExitUpd (cfg : StmtCfg) (s : StmtState) :
    claimsList (claimExitUpd cfg s) = claimsList s := rfl

theorem claimsList_completeOk_perm (cfg : StmtCfg) (s : StmtState) (a : Int)
    (ha : a ∈ s.inflight) :
    (claimsList (completeOkUpd cfg s a)).Perm (claimsList s) := by
  have h1 : claimsList (completeOkUpd cfg s a)
      = s.completed ++ (a :: s.inflight.erase a) := by
    simp [claimsList, completeOkUpd]
  rw [h1]
  exact List.Perm.append_left s.completed (List.perm_cons_erase ha).symm

theorem claimsList_errCont_sublist (s : StmtState) (a : Int) :
    (claimsList (errContUpd s a)).Sublist (claimsList s) :=
  (List.append_sublist_append_left s.completed).mpr (List.erase_sublist a s.inflight)

theorem claimsList_errAbort_sublist (s : StmtState) (a : Int) :
    (claimsList (errAbortUpd s a)).Sublist (claimsList s) :=
  (List.append_sublist_append_left s.completed).mpr (List.erase_sublist a s.inflight)

/-! ## Invariant preservation -/

theorem subInv_init (cfg : StmtCfg) (P : Nat) : SubInv cfg (stmtInit cfg P) := by
  refine ⟨onGrid_start cfg, ?_, ?_⟩ <;> simp [claimsList, stmtInit]

theorem subInv_step (cfg : StmtCfg) (hC : 0 < cfg.chunkSize) {s s' : StmtState}
    (hstep : Step cfg s s') (h : SubInv cfg s) : SubInv cfg s' := by
  obtain ⟨hg, hb, hn⟩ := h
  cases hstep with
  | claim hact hcnt =>
    refine ⟨?_, ?_, ?_⟩
    · simpa [claimUpd] using onGrid_add cfg hg
    · intro a hamem
      rw [claimsList_claimUpd] at hamem
      rcases List.mem_append.mp hamem with hold | hnew
      · obtain ⟨hga, hle, hlt⟩ := hb a hold
        refine ⟨hga, hle, ?_⟩
        simp only [claimUpd]
        linarith
      · rw [List.mem_singleton] at hnew
        subst hnew
        refine ⟨hg, hcnt, ?_⟩
        simp only [claimUpd]
        linarith
    · rw [claimsList_claimUpd]
      refine List.Nodup.append hn (List.nodup_singleton _) ?_
      intro a hamem hbmem
      rw [List.mem_singleton] at hbmem
      subst hbmem
      exact absurd (hb _ hamem).2.2 (lt_irrefl _)
  | claimExit hact hcnt =>
    refine ⟨?_, ?_, ?_⟩
    · simpa [claimExitUpd] using onGrid_add cfg hg
    · intro a hamem
      rw [claimsList_claimExitUpd] at hamem
      obtain ⟨hga, hle, hlt⟩ := hb a hamem
      refine ⟨hga, hle, ?_⟩
      simp only [claimExitUpd]
      linarith
    · rw [claimsList_claimExitUpd]; exact hn
  | completeOk a ha he =>
    have p := claimsList_completeOk_perm cfg s a ha
    refine ⟨by simpa [completeOkUpd] using hg, ?_, p.nodup_iff.mpr hn⟩
    intro b hbmem
    have hbmem' : b ∈ claimsList s := p.mem_iff.mp hbmem
    obtain ⟨hgb, hle, hlt⟩ := hb b hbmem'
    exact ⟨hgb, hle, by simpa [completeOkUpd] using hlt⟩
  | completeErrCont a ha he hp =>
    have sub := claimsList_errCont_sublist s a
    refine ⟨by simpa [errContUpd] using hg, ?_, hn.sublist sub⟩
    intro b hbmem
    obtain ⟨hgb, hle, hlt⟩ := hb b (sub.subset hbmem)
    exact ⟨hgb, hle, by simpa [errContUpd] using hlt⟩
  | completeErrAbort a ha he hp =>
    have sub := claimsList_errAbort_sublist s a
    refine ⟨by simpa [errAbortUpd] using hg, ?_, hn.sublist sub⟩
    intro b hbmem
    obtain ⟨hgb, hle, hlt⟩ := hb b (sub.subset hbmem)
    exact ⟨hgb, hle, by simpa [errAbortUpd] using hlt⟩
  | cancelFire =>
    exact ⟨hg, hb, hn⟩
  | cancelExit hact hcr =>
    refine ⟨by simpa [cancelExitUpd] using hg, ?_, hn⟩
    intro b hbmem
    obtain ⟨hgb, hle, hlt⟩ := hb b hbmem
    exact ⟨hgb, hle, by simpa [cancelExitUpd] using hlt⟩

theorem subInv_reach (cfg : StmtCfg) (hC : 0 < cfg.chunkSize) (P : Nat) {s : StmtState}
    (h : Reach cfg (stmtInit cfg P) s) : SubInv cfg s := by
  induction h with
  | refl => exact subInv_init cfg P
  | tail hsteps hstep ih => exact subInv_step cfg hC hstep ih

theorem fullInv_init (cfg : StmtCfg) (hC : 0 < cfg.chunkSize) (P : Nat) (hP : 1 ≤ P) :
    FullInv cfg (stmtInit cfg P) := by
  refine ⟨onGrid_start cfg, ?_, ?_, ?_⟩
  · intro a
    simp only [claimsList, stmtInit, List.append_nil, List.mem_nil_iff, false_iff]
    rintro ⟨⟨k, rfl⟩, -, hlt⟩
    have hk : (0 : Int) ≤ (k : Int) := Nat.cast_nonneg k
    nlinarith
  · simp [claimsList, stmtInit]
  · intro _ hact
    exact absurd hact (by simp [stmtInit]; omega)

theorem fullInv_step (cfg : StmtCfg) (hC : 0 < cfg.chunkSize)
    (hErr : ∀ a, cfg.errs a = false) {s s' : StmtState}
    (hstep : Step cfg s s') (h : FullInv cfg s) : FullInv cfg s' := by
  obtain ⟨hg, hiff, hn, hdr⟩ := h
  have hsub : SubInv cfg s := ⟨hg, fun a ha => (hiff a).mp ha, hn⟩
  have hsub' : SubInv cfg s' := subInv_step cfg hC hstep hsub
  cases hstep with
  | claim hact hcnt =>
    refine ⟨hsub'.counterGrid, ?_, hsub'.claimsNodup, ?_⟩
    · intro a
      constructor
      · exact fun ha => hsub'.claimsBelow a ha
      · rintro ⟨hga, hle, hlt⟩
        rw [claimsList_claimUpd, List.mem_append, List.mem_singleton]
        simp only [claimUpd] at hlt
        have hle' : a ≤ s.counter := grid_le_of_lt_addC cfg hC hga hg hlt
        rcases lt_or_eq_of_le hle' with hlt' | heq
        · exact Or.inl ((hiff a).mpr ⟨hga, hle, hlt'⟩)
        · exact Or.inr heq
    · intro hcr hact0
      exact absurd hact0 (by simp only [claimUpd] at *; omega)
  | claimExit hact hcnt =>
    refine ⟨hsub'.counterGrid, ?_, hsub'.claimsNodup, ?_⟩
    · intro a
      constructor
      · exact fun ha => hsub'.claimsBelow a ha
      · rintro ⟨hga, hle, hlt⟩
        rw [claimsList_claimExitUpd]
        simp only [claimExitUpd] at hlt
        have hle' : a ≤ s.counter := grid_le_of_lt_addC cfg hC hga hg hlt
        rcases lt_or_eq_of_le hle' with hlt' | heq
        · exact (hiff a).mpr ⟨hga, hle, hlt'⟩
        · subst heq
          exact absurd hle (not_le.mpr hcnt)
    · intro hcr hact0
      simp only [claimExitUpd]
      linarith
  | completeOk a ha he =>
    have p := claimsList_completeOk_perm cfg s a ha
    refine ⟨hsub'.counterGrid, ?_, hsub'.claimsNodup, ?_⟩
    · intro b
      rw [p.mem_iff]
      simpa [completeOkUpd] using hiff b
    · intro hcr hact0
      simp only [completeOkUpd] at hcr hact0 ⊢
      exact hdr hcr hact0
  | completeErrCont a ha he hp =>
    exact absurd he (by rw [hErr a]; simp)
  | completeErrAbort a ha he hp =>
    exact absurd he (by rw [hErr a]; simp)
  | cancelFire =>
    refine ⟨hsub'.counterGrid, ?_, hsub'.claimsNodup, ?_⟩
    · intro b
      simpa [claimsList] using hiff b
    · intro hcr
      simp at hcr
  | cancelExit hact hcr =>
    refine ⟨hsub'.counterGrid, ?_, hsub'.claimsNodup, ?_⟩
    · intro b
      simpa [claimsList, cancelExitUpd] using hiff b
    · intro hcr'
      simp only [cancelExitUpd] at hcr'
      rw [hcr] at hcr'
      exact absurd hcr' (by simp)

theorem fullInv_reach (cfg : StmtCfg) (hC : 0 < cfg.chunkSize)
    (hErr : ∀ a, cfg.errs a = false) (P : Nat) (hP : 1 ≤ P) {s : StmtState}
    (h : Reach cfg (stmtInit cfg P) s) : FullInv cfg s := by
  induction h with
  | refl => exact fullInv_init cfg hC P hP
  | tail hsteps hstep ih => exact fullInv_step cfg hC hErr hstep ih

/-! ## C3: statement-mode range correctness -/

/-- C3. Statement-mode range correctness: for every `maxID`, `startFrom`,
positive `chunkSize` and every worker count `P ≥ 1`, in any error-free,
uncancelled run of the batched executor that drained (all workers exited,
nothing in flight), the set of executed chunk starts is exactly the grid
`{startFrom + k·chunkSize | k ∈ ℕ}` cut off at `maxID`, each executed exactly
once, and each chunk's upper bound is `min(start + chunkSize - 1, maxID)` —
so no chunk with start above `maxID` is executed, the last chunk is truncated
to `maxID`, and the result is independent of the parallelism and of the
interleaving. -/
theorem runBatched_executes_exact_grid (cfg : StmtCfg) (P : Nat)
    (hC : 0 < cfg.chunkSize) (hP : 1 ≤ P) (hErr : ∀ a, cfg.errs a = false)
    (s : StmtState) (hs : Reach cfg (stmtInit cfg P) s)
    (hact : s.active = 0) (hinf : s.inflight = []) (hcan : s.cancelRequested = false) :
    (∀ a, a ∈ s.completed ↔ (onGrid cfg a ∧ a ≤ cfg.maxID)) ∧ s.completed.Nodup ∧
    (∀ a ∈ s.completed, chunkEnd cfg a = min (a + cfg.chunkSize - 1) cfg.maxID) := by
  obtain ⟨hg, hiff, hn, hdr⟩ := fullInv_reach cfg hC hErr P hP hs
  have hcnt : cfg.maxID < s.counter := hdr hcan hact
  have hcl : claimsList s = s.completed := by simp [claimsList, hinf]
  refine ⟨?_, ?_, ?_⟩
  · intro a
    rw [← hcl, hiff a]
    constructor
    · rintro ⟨hga, hle, -⟩
      exact ⟨hga, hle⟩
    · rintro ⟨hga, hle⟩
      exact ⟨hga, hle, lt_of_le_of_lt hle hcnt⟩
  · rw [← hcl]; exact hn
  · intro a _
    simp only [chunkEnd, min_def]
    split <;> split <;> omega

/-- Witness trace for `cfgGrid`: one worker claims and completes `[0,3]`,
`[4,7]`, `[8,9]`, then exits on the claim `12 > 9`. -/
theorem cfgGrid_trace : Reach cfgGrid (stmtInit cfgGrid 1) c3End := by
  have h1 : Step cfgGrid (stmtInit cfgGrid 1) (claimUpd cfgGrid (stmtInit cfgGrid 1)) :=
    Step.claim _ (by decide) (by decide)
  refine Relation.ReflTransGen.head h1 ?_
  have h2 : Step cfgGrid (claimUpd cfgGrid (stmtInit cfgGrid 1))
      (completeOkUpd cfgGrid (claimUpd cfgGrid (stmtInit cfgGrid 1)) 0) :=
    Step.completeOk _ 0 (by decide) rfl
  refine Relation.ReflTransGen.head h2 ?_
  set s2 := completeOkUpd cfgGrid (claimUpd cfgGrid (stmtInit cfgGrid 1)) 0 with hs2
  have h3 : Step cfgGrid s2 (claimUpd cfgGrid s2) := Step.claim _ (by decide) (by decide)
  refine Relation.ReflTransGen.head h3 ?_
  have h4 : Step cfgGrid (claimUpd cfgGrid s2) (completeOkUpd cfgGrid (claimUpd cfgGrid s2) 4) :=
    Step.completeOk _ 4 (by decide) rfl
  refine Relation.ReflTransGen.head h4 ?_
  set s4 := completeOkUpd cfgGrid (claimUpd cfgGrid s2) 4 with hs4
  have h5 : Step cfgGrid s4 (claimUpd cfgGrid s4) := Step.claim _ (by decide) (by decide)
  refine Relation.ReflTransGen.head h5 ?_
  have h6 : Step cfgGrid (claimUpd cfgGrid s4) (completeOkUpd cfgGrid (claimUpd cfgGrid s4) 8) :=
    Step.completeOk _ 8 (by decide) rfl
  refine Relation.ReflTransGen.head h6 ?_
  set s6 := completeOkUpd cfgGrid (claimUpd cfgGrid s4) 8 with hs6
  have h7 : Step cfgGrid s6 (claimExitUpd cfgGrid s6) := Step.claimExit _ (by decide) (by decide)
  have hend : claimExitUpd cfgGrid s6 = c3End := by decide
  rw [← hend]
  exact Relation.ReflTransGen.single h7

/-- Witness for C3: the hypotheses of `runBatched_executes_exact_grid` hold
for the concrete run `cfgGrid_trace`, and its conclusion instantiates at the
chunk start 8 (the truncated final chunk `[8, 9]`). -/
theorem runBatched_executes_exact_grid_witness :
    ((8 : Int) ∈ c3End.completed ↔ (onGrid cfgGrid 8 ∧ (8 : Int) ≤ cfgGrid.maxID)) ∧
    c3End.completed.Nodup := by
  have h := runBatched_executes_exact_grid cfgGrid 1 (by decide) (by decide)
    (fun a => rfl) c3End cfgGrid_trace rfl rfl rfl
  exact ⟨h.1 8, h.2.1⟩

/-! ## C1: chunk overlap -/

theorem chunkEnd_le (cfg : StmtCfg) (a : Int) :
    chunkEnd cfg a ≤ a + cfg.chunkSize - 1 := by
  unfold chunkEnd
  split <;> omega

/-- The claim emitted in round `i` of the copy-mode worker loop is
`next + i * chunkSize`: the claim counter advances by exactly `chunkSize`
(copier.go lines 226-234). -/
theorem copyWorkerLoop_claims (keys : List Int) (errAt : Int → Bool) (est s0 C : Int) :
    ∀ (fuel : Nat) (next : Int) (i : Nat) (r : chunkResult),
      ((copyWorkerLoop keys errAt est s0 C next fuel).1).get? i = some r →
      r.startID = next + i * C := by
  intro fuel
  induction fuel with
  | zero =>
    intro next i r h
    simp [copyWorkerLoop] at h
  | succ n ih =>
    intro next i r h
    by_cases hg : next > est + s0
    · simp [copyWorkerLoop, hg] at h
    · by_cases herr : (copyChunk keys next C false false (errAt next) false).err.isSome
      · have hlist : (copyWorkerLoop keys errAt est s0 C next (n + 1)).1 =
            [⟨next, (copyChunk keys next C false false (errAt next) false).endID,
              (copyChunk keys next C false false (errAt next) false).rowCount,
              (copyChunk keys next C false false (errAt next) false).err⟩] := by
          simp [copyWorkerLoop, hg, herr]
        rw [hlist] at h
        cases i with
        | zero =>
          rw [List.get?_cons_zero, Option.some_inj] at h
          subst h
          simp
        | succ j => simp at h
      · by_cases hrc : (copyChunk keys next C false false (errAt next) false).rowCount = 0
        · have hlist : (copyWorkerLoop keys errAt est s0 C next (n + 1)).1 =
              [⟨next, (copyChunk keys next C false false (errAt next) false).endID,
                (copyChunk keys next C false false (errAt next) false).rowCount,
                (copyChunk keys next C false false (errAt next) false).err⟩] := by
            simp [copyWorkerLoop, hg, herr, hrc]
          rw [hlist] at h
          cases i with
          | zero =>
            rw [List.get?_cons_zero, Option.some_inj] at h
            subst h
            simp
          | succ j => simp at h
        · have hlist : (copyWorkerLoop keys errAt est s0 C next (n + 1)).1 =
              ⟨next, (copyChunk keys next C false false (errAt next) false).endID,
                (copyChunk keys next C false false (errAt next) false).rowCount,
                (copyChunk keys next C false false (errAt next) false).err⟩ ::
                (copyWorkerLoop keys errAt est s0 C (next + C) n).1 := by
            simp [copyWorkerLoop, hg, herr, hrc]
          rw [hlist] at h
          cases i with
          | zero =>
            rw [List.get?_cons_zero, Option.some_inj] at h
            subst h
            simp
          | succ j =>
            rw [List.get?_cons_succ] at h
            rw [ih (next + C) j r h]
            push_cast
            ring

/-- Distinct stride positions give disjoint half-open claimed intervals. -/
theorem stride_disjoint (C next : Int) (hC : 0 < C) (i j : Nat) (hne : i ≠ j) :
    (next + i * C) + C ≤ next + j * C ∨ (next + j * C) + C ≤ next + i * C := by
  rcases lt_or_gt_of_ne hne with h | h
  · left
    have h1 : (i : Int) + 1 ≤ (j : Int) := by exact_mod_cast h
    nlinarith
  · right
    have h1 : (j : Int) + 1 ≤ (i : Int) := by exact_mod_cast h
    nlinarith

/-- C1 (amended). No overlap holds for the *claimed* ranges in both modes:
in statement mode, any two distinct claims tracked in a reachable state of
the batched executor are at least `chunkSize` apart, so their claimed
half-open ranges `[a, a + chunkSize)` and their executed closed chunks
`[a, chunkEnd a]` are disjoint; in copy mode, the claims handed out by the
worker loop lie on the stride grid and their claimed ranges are likewise
disjoint. (The *processed* copy-mode interval `[minID, minID + chunkSize)`
can nevertheless overlap a later chunk — see the counterexample.) -/
theorem claims_never_overlap (cfg : StmtCfg) (P : Nat) (hC : 0 < cfg.chunkSize)
    (s : StmtState) (hs : Reach cfg (stmtInit cfg P) s)
    (a₁ a₂ : Int) (h₁ : a₁ ∈ claimsList s) (h₂ : a₂ ∈ claimsList s) (hne : a₁ ≠ a₂) :
    (a₁ + cfg.chunkSize ≤ a₂ ∨ a₂ + cfg.chunkSize ≤ a₁) ∧
    (chunkEnd cfg a₁ < a₂ ∨ chunkEnd cfg a₂ < a₁) ∧
    (∀ (keys : List Int) (errAt : Int → Bool) (est s0 C next : Int) (fuel : Nat), 0 < C →
      ∀ (i j : Nat) (ri rj : chunkResult),
        ((copyWorkerLoop keys errAt est s0 C next fuel).1).get? i = some ri →
        ((copyWorkerLoop keys errAt est s0 C next fuel).1).get? j = some rj → i ≠ j →
        ri.startID + C ≤ rj.startID ∨ rj.startID + C ≤ ri.startID) := by
  obtain ⟨hg, hb, hn⟩ := subInv_reach cfg hC P hs
  obtain ⟨hg₁, -, -⟩ := hb a₁ h₁
  obtain ⟨hg₂, -, -⟩ := hb a₂ h₂
  have hclaims : a₁ + cfg.chunkSize ≤ a₂ ∨ a₂ + cfg.chunkSize ≤ a₁ := by
    rcases lt_or_gt_of_ne hne with h | h
    · exact Or.inl (grid_addC_le_of_lt cfg hC hg₁ hg₂ h)
    · exact Or.inr (grid_addC_le_of_lt cfg hC hg₂ hg₁ h)
  refine ⟨hclaims, ?_, ?_⟩
  · rcases hclaims with h | h
    · exact Or.inl (lt_of_le_of_lt (chunkEnd_le cfg a₁) (by linarith))
    · exact Or.inr (lt_of_le_of_lt (chunkEnd_le cfg a₂) (by linarith))
  · intro keys errAt est s0 C next fuel hC' i j ri rj hri hrj hij
    rw [copyWorkerLoop_claims keys errAt est s0 C fuel next i ri hri,
      copyWorkerLoop_claims keys errAt est s0 C fuel next j rj hrj]
    exact stride_disjoint C next hC' i j hij

/-- C1 (counterexample). Copy mode, source keys
`5, 12, 20, …, 90` (ten rows, so `estimatedRows = 10`), `chunkSize = 10`,
start 0: the worker claims 0 and 10; the MIN probe maps them to the processed
intervals `[5, 15)` and `[12, 22)`; both chunks succeed (`rowCount = 10`),
yet neither `15 ≤ 12` nor `22 ≤ 5` — the processed key intervals of two
successful chunks of one operation overlap (key 12 is copied twice). -/
theorem copy_processed_intervals_overlap_cx :
    (copyWorkerLoop keysSparse10 (fun _ => false) 10 0 10 0 5).1 =
      [⟨0, 15, 10, none⟩, ⟨10, 22, 10, none⟩] ∧
    minProbe keysSparse10 0 10 = some 5 ∧
    minProbe keysSparse10 10 10 = some 12 ∧
    ¬((15 : Int) ≤ 12 ∨ (22 : Int) ≤ 5) :=
  ⟨by decide, by decide, by decide, by decide⟩

/-- Two-claim trace of `cfgRegress`: both workers claim before either
completes. -/
theorem cfgRegress_claims_trace : Reach cfgRegress (stmtInit cfgRegress 2) c1Claims := by
  have h1 : Step cfgRegress (stmtInit cfgRegress 2) (claimUpd cfgRegress (stmtInit cfgRegress 2)) :=
    Step.claim _ (by decide) (by decide)
  refine Relation.ReflTransGen.head h1 ?_
  set s1 := claimUpd cfgRegress (stmtInit cfgRegress 2) with hs1
  have h2 : Step cfgRegress s1 (claimUpd cfgRegress s1) := Step.claim _ (by decide) (by decide)
  have hend : claimUpd cfgRegress s1 = c1Claims := by decide
  rw [← hend]
  exact Relation.ReflTransGen.single h2

/-- Witness for C1 (amended): the in-flight claims 0 and 10 of the concrete
two-worker state `c1Claims` have disjoint claimed ranges and chunks. -/
theorem claims_never_overlap_witness :
    ((0 : Int) + cfgRegress.chunkSize ≤ 10 ∨ (10 : Int) + cfgRegress.chunkSize ≤ 0) ∧
    (chunkEnd cfgRegress 0 < 10 ∨ chunkEnd cfgRegress 10 < 0) := by
  have h := claims_never_overlap cfgRegress 2 (by decide) c1Claims cfgRegress_claims_trace
    0 10 (by decide) (by decide) (by decide)
  exact ⟨h.1, h.2.1⟩

/-! ## C2: monotonicity of persisted progress -/

theorem processResult_highest_mono (st : CopyCoordState) (r : chunkResult) :
    st.highestCompletedID ≤ (processResult st r).highestCompletedID := by
  unfold processResult
  split
  · exact le_refl _
  · split
    · exact le_refl _
    · simp only []
      split <;> omega

theorem processResult_lastID_eq (st : CopyCoordState) (r : chunkResult)
    (h : st.lastID = st.highestCompletedID) :
    (processResult st r).lastID = (processResult st r).highestCompletedID := by
  unfold processResult
  split
  · exact h
  · split
    · exact h
    · rfl

theorem processResult_success (st : CopyCoordState) (r : chunkResult)
    (he : r.err = none) (hc : r.rowCount ≠ 0) :
    r.endID ≤ (processResult st r).highestCompletedID ∧
    (processResult st r).lastID = (processResult st r).highestCompletedID := by
  unfold processResult
  rw [he]
  simp only [Option.isSome_none, Bool.false_eq_true, if_false, if_neg hc]
  constructor
  · split <;> omega
  · trivial

theorem foldl_lastID_tracks (l : List chunkResult) :
    ∀ st : CopyCoordState, st.lastID = st.highestCompletedID →
      (l.foldl processResult st).lastID = (l.foldl processResult st).highestCompletedID ∧
      st.highestCompletedID ≤ (l.foldl processResult st).highestCompletedID := by
  induction l with
  | nil => exact fun st h => ⟨h, le_refl _⟩
  | cons r t ih =>
    intro st h
    obtain ⟨ha, hb⟩ := ih (processResult st r) (processResult_lastID_eq st r h)
    exact ⟨ha, le_trans (processResult_highest_mono st r) hb⟩

/-- C2 (amended). In copy mode the coordinator keeps
`state.LastID = max over successful endIDs` (it updates with
`max(highestCompletedID, endID)` and persists that), so the persisted value
is `≥` every endKey of a successful chunk ever reported, in any completion
order. In statement mode, by contrast, each completing chunk overwrites the
record's `last_completed_id` with its own `end` — the persisted value is the
endKey of the *most recently completed* chunk, not a maximum. -/
theorem persisted_progress_semantics :
    (∀ (startID : Int) (rs : List chunkResult) (r : chunkResult), r ∈ rs →
      r.err = none → r.rowCount ≠ 0 → r.endID ≤ (processResults startID rs).lastID) ∧
    (∀ (cfg : StmtCfg) (s : StmtState) (a : Int), a ∈ s.inflight → cfg.errs a = false →
      Step cfg s (completeOkUpd cfg s a) ∧
      (completeOkUpd cfg s a).lastCompleted = chunkEnd cfg a) := by
  constructor
  · intro startID rs r hmem he hc
    obtain ⟨l₁, l₂, rfl⟩ := List.append_of_mem hmem
    unfold processResults
    rw [List.foldl_append, List.foldl_cons]
    set st₁ := l₁.foldl processResult (initCoord startID) with hst₁
    obtain ⟨hend, heq⟩ := processResult_success st₁ r he hc
    obtain ⟨hfin, hmono⟩ := foldl_lastID_tracks l₂ (processResult st₁ r) heq
    rw [hfin]
    exact le_trans hend hmono
  · intro cfg s a ha he
    exact ⟨Step.completeOk s a ha he, rfl⟩

/-- C2 (counterexample). Statement mode, `chunkSize = 10`, `maxID = 19`, two
workers: chunk `[10, 19]` completes first (endKey 19 is reported and
persisted), then chunk `[0, 9]` completes and `UpdateProgress` overwrites
`last_completed_id` with 9 — the persisted value 9 is smaller than the
previously reported endKey 19. -/
theorem updateProgress_regress_cx :
    Reach cfgRegress (stmtInit cfgRegress 2) c2End ∧
    (19 : Int) ∈ c2End.completed.map (chunkEnd cfgRegress) ∧
    c2End.lastCompleted = 9 ∧ ¬((19 : Int) ≤ c2End.lastCompleted) := by
  refine ⟨?_, by decide, by decide, by decide⟩
  refine Relation.ReflTransGen.head
    (@Step.claim cfgRegress (stmtInit cfgRegress 2) (by decide) (by decide)) ?_
  set s1 := claimUpd cfgRegress (stmtInit cfgRegress 2) with hs1
  refine Relation.ReflTransGen.head (@Step.claim cfgRegress s1 (by decide) (by decide)) ?_
  refine Relation.ReflTransGen.head
    (@Step.completeOk cfgRegress (claimUpd cfgRegress s1) 10 (by decide) rfl) ?_
  set s3 := completeOkUpd cfgRegress (claimUpd cfgRegress s1) 10 with hs3
  have h4 : Step cfgRegress s3 (completeOkUpd cfgRegress s3 0) :=
    Step.completeOk s3 0 (by decide) rfl
  have hend : completeOkUpd cfgRegress s3 0 = c2End := by decide
  rw [← hend]
  exact Relation.ReflTransGen.single h4

/-- Witness for C2 (amended): a single successful result with endKey 60 is
reflected in the persisted copy-mode `LastID`, and a concrete statement-mode
completion overwrites `lastCompleted` with its chunk end. -/
theorem persisted_progress_semantics_witness :
    (60 : Int) ≤ (processResults 0 [⟨0, 60, 10, none⟩]).lastID ∧
    (completeOkUpd cfgRegress c1Claims 10).lastCompleted = chunkEnd cfgRegress 10 := by
  constructor
  · exact persisted_progress_semantics.1 0 [⟨0, 60, 10, none⟩] ⟨0, 60, 10, none⟩
      (by decide) rfl (by decide)
  · exact (persisted_progress_semantics.2 cfgRegress c1Claims 10 (by decide) rfl).2

/-! ## C4: abort policy -/

/-- C4 (amended). Statement mode, `on_error = abort`: a chunk error makes the
erroring worker record the error, set the migration status to `failed` and
exit — but it does not fire cancellation (`cancelRequested` is unchanged) and
only that one worker leaves the pool; any other worker with a claim
`≤ maxID` still takes it; the stored error is surfaced as the run's outcome
only after the pool drains (when cancellation never fired). -/
theorem abort_fails_without_cancellation (cfg : StmtCfg) (s : StmtState) (a : Int)
    (ha : a ∈ s.inflight) (he : cfg.errs a = true) (hp : cfg.onErrorContinue = false) :
    Step cfg s (errAbortUpd s a) ∧
    (errAbortUpd s a).failed = true ∧
    (errAbortUpd s a).cancelRequested = s.cancelRequested ∧
    (errAbortUpd s a).active = s.active - 1 ∧
    (∀ s' : StmtState, 1 ≤ s'.active → s'.counter ≤ cfg.maxID → Step cfg s' (claimUpd cfg s')) ∧
    (∀ s' : StmtState, s'.cancelRequested = false → s'.failed = true →
      batchedOutcome s' = BatchOutcome.failedOutcome) := by
  refine ⟨Step.completeErrAbort s a ha he hp, rfl, rfl, rfl,
    fun s' h1 h2 => Step.claim s' h1 h2, ?_⟩
  intro s' h1 h2
  simp [batchedOutcome, h1, h2]

/-- C4 (counterexample). `cfgAbort` (first chunk errors, abort policy), two
workers: after the error the state `c4Mid` has status `failed` and no
cancellation, and the surviving worker *does* claim the fresh chunk starting
at 10, executes it, and the run drains through the whole remaining range
(`c4End`), returning the stored error only then — not the "cancel and stop
claiming" behaviour the claim describes. -/
theorem abort_no_cancellation_cx :
    Reach cfgAbort (stmtInit cfgAbort 2) c4Mid ∧
    c4Mid.failed = true ∧ c4Mid.cancelRequested = false ∧
    Step cfgAbort c4Mid (claimUpd cfgAbort c4Mid) ∧
    (claimUpd cfgAbort c4Mid).inflight = [10] ∧
    Reach cfgAbort (stmtInit cfgAbort 2) c4End ∧
    c4End.completed = [10] ∧ c4End.active = 0 ∧ c4End.cancelRequested = false ∧
    batchedOutcome c4End = BatchOutcome.failedOutcome := by
  have htr1 : Reach cfgAbort (stmtInit cfgAbort 2) c4Mid := by
    refine Relation.ReflTransGen.head
      (@Step.claim cfgAbort (stmtInit cfgAbort 2) (by decide) (by decide)) ?_
    have h2 : Step cfgAbort (claimUpd cfgAbort (stmtInit cfgAbort 2))
        (errAbortUpd (claimUpd cfgAbort (stmtInit cfgAbort 2)) 0) :=
      Step.completeErrAbort _ 0 (by decide) (by decide) rfl
    have hend : errAbortUpd (claimUpd cfgAbort (stmtInit cfgAbort 2)) 0 = c4Mid := by decide
    rw [← hend]
    exact Relation.ReflTransGen.single h2
  have h3 : Step cfgAbort c4Mid (claimUpd cfgAbort c4Mid) :=
    Step.claim _ (by decide) (by decide)
  have h4 : Step cfgAbort (claimUpd cfgAbort c4Mid)
      (completeOkUpd cfgAbort (claimUpd cfgAbort c4Mid) 10) :=
    Step.completeOk _ 10 (by decide) rfl
  have h5 : Step cfgAbort (completeOkUpd cfgAbort (claimUpd cfgAbort c4Mid) 10)
      (claimExitUpd cfgAbort (completeOkUpd cfgAbort (claimUpd cfgAbort c4Mid) 10)) :=
    Step.claimExit _ (by decide) (by decide)
  have hend : claimExitUpd cfgAbort (completeOkUpd cfgAbort (claimUpd cfgAbort c4Mid) 10)
      = c4End := by decide
  have htr2 : Reach cfgAbort (stmtInit cfgAbort 2) c4End := by
    rw [← hend]
    exact ((htr1.tail h3).tail h4).tail h5
  exact ⟨htr1, by decide, by decide, h3, by decide, htr2, by decide, by decide, by decide,
    by decide⟩

/-- Witness for C4 (amended), at the concrete erroring state of `cfgAbort`. -/
theorem abort_fails_without_cancellation_witness :
    (errAbortUpd (claimUpd cfgAbort (stmtInit cfgAbort 2)) 0).failed = true ∧
    (errAbortUpd (claimUpd cfgAbort (stmtInit cfgAbort 2)) 0).cancelRequested = false := by
  have h := abort_fails_without_cancellation cfgAbort (claimUpd cfgAbort (stmtInit cfgAbort 2)) 0
    (by decide) (by decide) rfl
  refine ⟨h.2.1, ?_⟩
  rw [h.2.2.1]
  decide

/-! ## C5: copy-mode worker termination -/

/-- C5 (code bug). Copy mode with source keys 50 and 80 (two rows, so
`estimatedRows = 2`), `startID = 0`, `chunkSize = 10`, no errors and no
cancellation: the worker copies one chunk (processed interval `[50, 60)`,
reported as `⟨0, 60, 10, none⟩`) and then leaves its claim loop through the
`nextStartID > estimatedRows + startID` guard (copier.go line 227), because
the next claim 10 exceeds `2`. Yet the MIN probe at 10 would still return
key 50 — rows with keys `≥ 10` exist, and key 80 lies outside the single
processed interval and is silently never copied. The claim (and §4.2 of the
spec) permit an exit only on cancellation, a chunk error, or an empty MIN
probe. -/
theorem copy_worker_guard_exit_skips_rows :
    copyWorkerLoop keysSparse2 (fun _ => false) 2 0 10 0 5 =
      ([⟨0, 60, 10, none⟩], CopyExit.claimGuard) ∧
    minProbe keysSparse2 10 10 = some 50 ∧
    (80 : Int) ∈ keysSparse2 ∧ ¬((80 : Int) < 60) :=
  ⟨by decide, by decide, by decide, by decide⟩

/-! ## C6: copy-mode executor return value -/

/-- C6 (amended). A successfully executed copy chunk claimed at `a` returns
`rowsAffected = chunkSize` — the nominal claimed size, not a count parsed
from the binary stream — and `endKey = minID + chunkSize`, where `minID` is
the least existing source key `≥ a` found by the MIN probe; the endKey equals
`a + chunkSize` only in the gap-free case `minID = a`. -/
theorem copyChunk_success_return (keys : List Int) (a chunkSize m : Int)
    (hm : minProbe keys a chunkSize = some m) :
    copyChunk keys a chunkSize false false false false =
      ⟨chunkSize, m + chunkSize, none⟩ := by
  simp [copyChunk, hm]

/-- Witness for C6 (amended): source key 7, claim 0, chunk size 10. -/
theorem copyChunk_success_return_witness :
    minProbe [(7 : Int)] 0 10 = some 7 ∧
    copyChunk [(7 : Int)] 0 10 false false false false = ⟨10, 17, none⟩ :=
  ⟨by decide, copyChunk_success_return [(7 : Int)] 0 10 7 (by decide)⟩

/-- C6 (counterexample). With a single source row of key 7, the chunk claimed
at `a = 0` with `chunkSize = 10` succeeds and returns `endKey = 17`
(`minID + chunkSize`), which differs from the claimed `a + chunkSize = 10`. -/
theorem copyChunk_endKey_not_claim_cx :
    copyChunk [(7 : Int)] 0 10 false false false false = ⟨10, 17, none⟩ ∧
    (17 : Int) ≠ 0 + 10 :=
  ⟨by decide, by decide⟩

/-! ## C7: status checks on the run entry paths -/

/-- C7 (amended). The daemon/TUI entry path `RunMigration` refuses to start a
migration whose record status is `running` or `completed` (whatever the other
checks say, it never reaches `started`); the CLI entry path `runSingle`
requires only that the migration parses and its record loads, and invokes
`Executor.Run` without inspecting the status — it therefore does not reject
a record already marked `running`. -/
theorem run_entry_status_checks (found isRunningInProc recordOk : Bool) (status : String)
    (h : status = "running" ∨ status = "completed") :
    runMigrationDecision found isRunningInProc recordOk status ≠ RunMigrationOutcome.started ∧
    (∀ st : String, runSingleStarts true true st = true) := by
  refine ⟨?_, fun st => rfl⟩
  rcases h with h | h <;> subst h <;>
    cases found <;> cases isRunningInProc <;> cases recordOk <;> decide

/-- Witness for C7 (amended). -/
theorem run_entry_status_checks_witness :
    runMigrationDecision true false true "running" ≠ RunMigrationOutcome.started ∧
    runSingleStarts true true "running" = true := by
  have h := run_entry_status_checks true false true "running" (Or.inl rfl)
  exact ⟨h.1, h.2 "running"⟩

/-- C7 (counterexample). The CLI path `psc run <name>` proceeds to
`Executor.Run` for a record whose status is already `running` (and likewise
`completed`): the claim that every entry path rejects such starts is false.
The daemon path does reject it. -/
theorem runSingle_no_status_check_cx :
    runSingleStarts true true "running" = true ∧
    runSingleStarts true true "completed" = true ∧
    runMigrationDecision true false true "running" =
      RunMigrationOutcome.alreadyRunningStatus :=
  ⟨rfl, rfl, by decide⟩

/-! ## C8: table extraction for the MAX probe -/

/-- C8 (amended). Extraction never fails: on SQL containing neither
`"UPDATE "` nor `"FROM "`, `extractTableForMax` returns the fallback name
`"unknown_table"` instead of any error. The operation still fails before any
worker starts, but only when the subsequent MAX probe itself errors
(`runBatchedStart` returns `earlyFail` with the probe's
`failed to get max id` message); with a successful probe the run proceeds to
launch workers. -/
theorem extraction_never_fails :
    extractTableForMax "TRUNCATE foo" "id" = "unknown_table" ∧
    (∀ (e : String) (lcid cs p : Int),
      runBatchedStart (Except.error e) lcid cs p =
        BatchedStart.earlyFail ("failed to get max id: " ++ e)) :=
  ⟨by decide, fun e lcid cs p => rfl⟩

/-- C8 (counterexample). For the statement `TRUNCATE foo`, from which no
table name for the MAX probe can be extracted, the code produces the
non-error fallback `"unknown_table"`, and — were the probe to succeed — the
prelude launches workers: no extraction error ever makes the operation fail. -/
theorem extraction_error_missing_cx :
    extractTableForMax "TRUNCATE foo" "id" = "unknown_table" ∧
    runBatchedStart (Except.ok 100) 0 10 2 = BatchedStart.launched 100 0 10 2 :=
  ⟨by decide, by decide⟩

/-! ## C9: SSL fallback -/

/-- C9 (amended). The copy-mode routine `connectWithSSLRetry` behaves as the
claim says: a successful require-mode ping connects with `require`; a ping
error retries with `sslmode=disable` exactly when the error text contains
`"SSL is not enabled on the server"`, and every other open or ping error is
returned without a retry. The statement-mode routine `ConnectService`,
however, falls back to the `disable` attempt whenever the require attempt
fails for any reason whatsoever. -/
theorem ssl_fallback_semantics :
    (∀ od pd : Option String, connectWithSSLRetry none none od pd = .connected "require") ∧
    (∀ (e : String) (od pd : Option String), goContains e sslNotEnabledMsg = false →
      connectWithSSLRetry none (some e) od pd = .connFailed "ping") ∧
    (∀ (e : String) (od pd : Option String), goContains e sslNotEnabledMsg = true →
      connectWithSSLRetry none (some e) od pd = connectDisableAttempt od pd) ∧
    (∀ (e : String) (pr od pd : Option String),
      connectWithSSLRetry (some e) pr od pd = .connFailed "open") ∧
    (∀ opR piR od pd : Option String, opR.isSome ∨ piR.isSome →
      ConnectService opR piR od pd = connectDisableAttempt od pd) := by
  refine ⟨fun od pd => rfl, ?_, ?_, fun e pr od pd => rfl, ?_⟩
  · intro e od pd h
    simp [connectWithSSLRetry, h]
  · intro e od pd h
    simp [connectWithSSLRetry, h]
  · intro opR piR od pd h
    unfold ConnectService
    rcases h with h | h
    · obtain ⟨v, rfl⟩ := Option.isSome_iff_exists.mp h
      rfl
    · obtain ⟨v, rfl⟩ := Option.isSome_iff_exists.mp h
      cases opR <;> rfl

/-- Witness for C9 (amended): a non-SSL authentication error is fatal in
`connectWithSSLRetry`. -/
theorem ssl_fallback_semantics_witness :
    goContains "password authentication failed" sslNotEnabledMsg = false ∧
    connectWithSSLRetry none (some "password authentication failed") none none =
      ConnResult.connFailed "ping" :=
  ⟨by decide, ssl_fallback_semantics.2.1 "password authentication failed" none none (by decide)⟩

/-- C9 (counterexample). On a require-mode ping failure `"password
authentication failed"` — not an SSL-support error — `ConnectService`
retries with `sslmode=disable` and connects, instead of treating the error
as fatal; the copy-mode routine returns the error. -/
theorem connectService_always_falls_back_cx :
    ConnectService none (some "password authentication failed") none none =
      ConnResult.connected "disable" ∧
    connectWithSSLRetry none (some "password authentication failed") none none =
      ConnResult.connFailed "ping" :=
  ⟨by decide, by decide⟩

/-! ## C10: ParseServiceFile error and content behaviour -/

theorem runLines_cons (st : ParseState) (l : String) (t : List String) :
    runLines st (l :: t) = runLines (processLine st l) t := rfl

theorem runLines_append (st : ParseState) (a b : List String) :
    runLines st (a ++ b) = runLines (runLines st a) b := by
  simp [runLines, List.foldl_append]

theorem processLine_header (st : ParseState) (l : String) (h : isHeaderLine l = true) :
    processLine st l = ⟨saveCurrent st, headerName l, defaultSectionConfig⟩ := by
  simp only [isHeaderLine, Bool.and_eq_true, Bool.not_eq_true'] at h
  simp only [processLine, headerName, h.1, h.2]
  rfl

theorem processLine_nonheader (st : ParseState) (l : String) (h : isHeaderLine l = false) :
    processLine st l = ⟨st.services, st.currentService, configEffect st.currentConfig l⟩ := by
  by_cases hA : (goTrimSpace l = "" || goHasPfx (goTrimSpace l) "#"
      || goHasPfx (goTrimSpace l) ";") = true
  · simp only [processLine, configEffect, hA, if_true]
  · have hA' : (goTrimSpace l = "" || goHasPfx (goTrimSpace l) "#"
        || goHasPfx (goTrimSpace l) ";") = false := by
      exact Bool.not_eq_true _ ▸ (by simpa using hA)
    have hB : (goHasPfx (goTrimSpace l) "[" && goHasSfx (goTrimSpace l) "]") = false := by
      by_contra hBB
      have hBB' : (goHasPfx (goTrimSpace l) "[" && goHasSfx (goTrimSpace l) "]") = true := by
        simpa using hBB
      have hcontra : isHeaderLine l = true := by
        simp [isHeaderLine, hA', hBB']
      rw [h] at hcontra
      exact Bool.noConfusion hcontra
    simp only [processLine, configEffect, hA', hB, Bool.false_eq_true, if_false]
    cases hsp : splitEq2 (goTrimSpace l) with
    | nil => rfl
    | cons k tail =>
      cases tail with
      | nil => rfl
      | cons v rest =>
        cases rest with
        | nil => rfl
        | cons w rest2 => rfl

theorem runLines_nonheaders (ls : List String) :
    ∀ st : ParseState, (∀ l ∈ ls, isHeaderLine l = false) →
      (runLines st ls).services = st.services ∧
      (runLines st ls).currentService = st.currentService := by
  induction ls with
  | nil => exact fun st _ => ⟨rfl, rfl⟩
  | cons l t ih =>
    intro st h
    have h1 := processLine_nonheader st l (h l (List.mem_cons_self l t))
    have h2 := ih (processLine st l) (fun x hx => h x (List.mem_cons_of_mem l hx))
    rw [runLines, List.foldl_cons, ← runLines] at *
    rw [h1] at h2 ⊢
    exact h2

theorem final_eq_of_empty_svc (ls : List String) :
    ∀ st₁ st₂ : ParseState, st₁.services = st₂.services →
      st₁.currentService = "" → st₂.currentService = "" →
      finalServices (runLines st₁ ls) = finalServices (runLines st₂ ls) := by
  induction ls with
  | nil =>
    intro st₁ st₂ hm h1 h2
    simp only [runLines, List.foldl_nil, finalServices, saveCurrent, h1, h2, if_pos, hm]
  | cons l t ih =>
    intro st₁ st₂ hm h1 h2
    rw [runLines_cons st₁ l t, runLines_cons st₂ l t]
    by_cases hl : isHeaderLine l = true
    · rw [processLine_header st₁ l hl, processLine_header st₂ l hl]
      have hs₁ : saveCurrent st₁ = st₁.services := by simp [saveCurrent, h1]
      have hs₂ : saveCurrent st₂ = st₂.services := by simp [saveCurrent, h2]
      rw [hs₁, hs₂, hm]
    · have hl' : isHeaderLine l = false := by simpa using hl
      rw [processLine_nonheader st₁ l hl', processLine_nonheader st₂ l hl']
      exact ih _ _ hm h1 h2

theorem final_eq_of_agree (ls : List String) :
    ∀ (st₁ st₂ : ParseState) (n : String), n ≠ "" →
      st₁.currentService = n → st₂.currentService = n →
      st₁.currentConfig = st₂.currentConfig →
      (∀ q, q ≠ n → st₁.services q = st₂.services q) →
      finalServices (runLines st₁ ls) = finalServices (runLines st₂ ls) := by
  induction ls with
  | nil =>
    intro st₁ st₂ n hn h1 h2 hc hm
    simp only [runLines, List.foldl_nil, finalServices, saveCurrent, h1, h2, if_neg hn]
    funext q
    by_cases hq : q = n
    · subst hq
      simp [mapInsert, hc]
    · simp [mapInsert, hq, hm q hq]
  | cons l t ih =>
    intro st₁ st₂ n hn h1 h2 hc hm
    rw [runLines_cons st₁ l t, runLines_cons st₂ l t]
    by_cases hl : isHeaderLine l = true
    · rw [processLine_header st₁ l hl, processLine_header st₂ l hl]
      have hsave : saveCurrent st₁ = saveCurrent st₂ := by
        funext q
        simp only [saveCurrent, h1, h2, if_neg hn]
        by_cases hq : q = n
        · subst hq
          simp [mapInsert, hc]
        · simp [mapInsert, hq, hm q hq]
      rw [hsave]
    · have hl' : isHeaderLine l = false := by simpa using hl
      rw [processLine_nonheader st₁ l hl', processLine_nonheader st₂ l hl']
      exact ih _ _ n hn h1 h2 (by rw [hc]) hm

/-- C10. `ParseServiceFile` fails only at its two I/O points (file open and
`scanner.Err()`): no file content produces an error. A line that is neither a
section header nor a key=value pair leaves the scanner state untouched;
key=value lines before the first section header do not affect the returned
map; and a later section of the same (nonempty) name makes its config
completely replace the earlier section's entry in the map. -/
theorem parseServiceFile_content_total :
    (∀ (openR : Option (List String)) (scanE : Option String),
      (ParseServiceFile openR scanE).isSome ↔ (openR.isSome ∧ scanE = none)) ∧
    (∀ (st : ParseState) (l : String), skippableLine l = true → processLine st l = st) ∧
    (∀ pre rest : List String, (∀ l ∈ pre, isHeaderLine l = false) →
      parseLinesMap (pre ++ rest) = parseLinesMap rest) ∧
    (∀ (pre : List String) (h₁ h₂ : String) (b₁ b₂ rest : List String),
      isHeaderLine h₁ = true → isHeaderLine h₂ = true →
      headerName h₁ = headerName h₂ → headerName h₂ ≠ "" →
      (∀ l ∈ b₁, isHeaderLine l = false) →
      parseLinesMap (pre ++ h₁ :: (b₁ ++ h₂ :: (b₂ ++ rest))) =
        parseLinesMap (pre ++ h₂ :: (b₂ ++ rest))) := by
  refine ⟨?_, ?_, ?_, ?_⟩
  · intro openR scanE
    cases openR <;> cases scanE <;> simp [ParseServiceFile]
  · intro st l h
    by_cases hA : (goTrimSpace l = "" || goHasPfx (goTrimSpace l) "#"
        || goHasPfx (goTrimSpace l) ";") = true
    · simp only [processLine, hA, if_true]
    · have hA' : (goTrimSpace l = "" || goHasPfx (goTrimSpace l) "#"
          || goHasPfx (goTrimSpace l) ";") = false := by simpa using hA
      simp only [skippableLine, hA', Bool.false_or, Bool.and_eq_true,
        Bool.not_eq_true'] at h
      obtain ⟨hB, hlen⟩ := h
      simp only [processLine, hA', hB, Bool.false_eq_true, if_false]
      cases hsp : splitEq2 (goTrimSpace l) with
      | nil => rfl
      | cons k tail =>
        cases tail with
        | nil => rfl
        | cons v rest =>
          cases rest with
          | nil =>
            rw [hsp] at hlen
            simp at hlen
          | cons w rest2 => rfl
  · intro pre rest hpre
    unfold parseLinesMap
    rw [runLines_append]
    obtain ⟨hm, hsvc⟩ := runLines_nonheaders pre initParseState hpre
    exact final_eq_of_empty_svc rest _ _ hm hsvc rfl
  · intro pre h₁ h₂ b₁ b₂ rest hh₁ hh₂ hname hnz hb₁
    unfold parseLinesMap
    have e1 : runLines initParseState (pre ++ h₁ :: (b₁ ++ h₂ :: (b₂ ++ rest))) =
        runLines (processLine (runLines (processLine (runLines initParseState pre) h₁) b₁) h₂)
          (b₂ ++ rest) := by
      rw [runLines_append, runLines_cons, runLines_append, runLines_cons]
    have e2 : runLines initParseState (pre ++ h₂ :: (b₂ ++ rest)) =
        runLines (processLine (runLines initParseState pre) h₂) (b₂ ++ rest) := by
      rw [runLines_append, runLines_cons]
    rw [e1, e2]
    set st₀ := runLines initParseState pre with hst₀
    rw [processLine_header st₀ h₁ hh₁, processLine_header st₀ h₂ hh₂]
    set A := runLines (⟨saveCurrent st₀, headerName h₁, defaultSectionConfig⟩ : ParseState) b₁
      with hA
    obtain ⟨hAm, hAsvc⟩ := runLines_nonheaders b₁
      ⟨saveCurrent st₀, headerName h₁, defaultSectionConfig⟩ hb₁
    rw [processLine_header A h₂ hh₂]
    have h1 : A.currentService = headerName h₂ := by
      rw [hA, hAsvc]
      exact hname
    refine final_eq_of_agree (b₂ ++ rest) _ _ (headerName h₂) hnz rfl rfl rfl ?_
    intro q hq
    have e3 : saveCurrent A q = A.services q := by
      simp [saveCurrent, mapInsert, h1, hnz, hq]
    have e4 : A.services q = saveCurrent st₀ q := by
      rw [hA, hAm]
    exact e3.trans e4

/-- Witness for C10: a malformed line is a no-op; pre-header key=values are
discarded; a repeated `[a]` section replaces the earlier one. -/
theorem parseServiceFile_content_total_witness :
    skippableLine "garbage" = true ∧
    processLine initParseState "garbage" = initParseState ∧
    parseLinesMap (["host=shadow"] ++ ["[prod]", "host=h"]) =
      parseLinesMap ["[prod]", "host=h"] ∧
    parseLinesMap ["[a]", "host=h1", "[a]", "port=93"] = parseLinesMap ["[a]", "port=93"] := by
  refine ⟨by decide, ?_, ?_, ?_⟩
  · exact parseServiceFile_content_total.2.1 initParseState "garbage" (by decide)
  · exact parseServiceFile_content_total.2.2.1 ["host=shadow"] ["[prod]", "host=h"] (by decide)
  · exact parseServiceFile_content_total.2.2.2 [] "[a]" "[a]" ["host=h1"] ["port=93"] []
      (by decide) (by decide) rfl (by decide) (by decide)

end PSC
